import Mathlib

/-!
Verification of the unified scraping/crawling library.

The development shallowly embeds the TypeScript sources (`scraper.ts` /
`crawler.ts` and their tool wrappers) in Lean:

* timestamps (`Date.now()`, `new Date()`) become `Nat` milliseconds passed in
  explicitly as `now`;
* the process-wide mutable provider-state record becomes an explicit
  `ScraperState` value threaded through every operation that reads or writes
  it (reads can write, because `isRateLimited` lazily clears expired limits);
* environment credentials become an explicit `Env` record;
* the network and the HTML platform libraries (fetch, JSDOM/Readability,
  cheerio selectors, DOMPurify, Turndown, WHATWG `URL`) are inputs of the
  embedded functions, collected in `WebDeps`; concrete test instances are
  provided for evaluating the embedding on closed inputs;
* JavaScript truthiness of optional strings / numbers is modelled by the
  `jsOrStr` / `jsOrOpt` / `jsOrNat` / `firstTruthy` helpers, and `a ?? b`
  by `Option.getD`;
* provider adapter calls performed by the fallback orchestrator are modelled
  by an `outcome : Provider → AdapterOutcome` map giving, for this request,
  the result each adapter would produce if invoked.
-/

namespace Scraping

/-- The closed set of backend names (`ScrapingProvider` / `CrawlingProvider`). -/
inductive Provider where
  | exa
  | firecrawl
  | cheerio
deriving DecidableEq, Repr

/-- Per-provider rate-limit record (`RateLimitState`). -/
structure RateLimitState where
  isLimited : Bool
  resetAt : Option Nat := none
  errors : Nat
deriving DecidableEq, Repr

/-- Per-provider state (`ProviderState`). -/
structure ProviderState where
  available : Bool
  rateLimit : RateLimitState
  lastSuccess : Option Nat := none
deriving DecidableEq, Repr

/-- The process-wide provider-state record (`state = createRateLimitState()`),
one `ProviderState` per provider. -/
structure ScraperState where
  exa : ProviderState
  firecrawl : ProviderState
  cheerio : ProviderState
deriving DecidableEq, Repr

/-- Read one provider's state (`state[provider]`). -/
def getState (s : ScraperState) : Provider → ProviderState
  | .exa => s.exa
  | .firecrawl => s.firecrawl
  | .cheerio => s.cheerio

/-- Replace one provider's state (assignment to `state[provider]`). -/
def setState (s : ScraperState) (p : Provider) (ps : ProviderState) : ScraperState :=
  match p with
  | .exa => { s with exa := ps }
  | .firecrawl => { s with firecrawl := ps }
  | .cheerio => { s with cheerio := ps }

/-- The fixed cooldown window (`RATE_LIMIT_COOLDOWN_MS = 60 * 1000`). -/
def rateLimitCooldownMs : Nat := 60 * 1000

/-- Initial state of a single provider (`createInitialState`). -/
def createInitialState : ProviderState :=
  { available := false, rateLimit := { isLimited := false, errors := 0 } }

/-- Initial state of the whole tracker (`createRateLimitState`). -/
def createRateLimitState : ScraperState :=
  { exa := createInitialState, firecrawl := createInitialState,
    cheerio := createInitialState }

/-- Transition `setAvailable(provider, available)`. -/
def setAvailable (s : ScraperState) (p : Provider) (available : Bool) : ScraperState :=
  setState s p { getState s p with available := available }

/-- Transition `recordSuccess(provider)`: stamp `lastSuccess`, clear the
limited flag, reset the error count. -/
def recordSuccess (now : Nat) (s : ScraperState) (p : Provider) : ScraperState :=
  let ps := getState s p
  setState s p
    { ps with
      lastSuccess := some now
      rateLimit := { ps.rateLimit with isLimited := false, errors := 0 } }

/-- Transition `recordRateLimit(provider)`: set the limited flag, bump the
error count, set `resetAt = Date.now() + RATE_LIMIT_COOLDOWN_MS`. -/
def recordRateLimit (now : Nat) (s : ScraperState) (p : Provider) : ScraperState :=
  let ps := getState s p
  setState s p
    { ps with
      rateLimit :=
        { ps.rateLimit with
          isLimited := true
          errors := ps.rateLimit.errors + 1
          resetAt := some (now + rateLimitCooldownMs) } }

/-- Transition `recordError(provider)`: bump the error count only. -/
def recordError (s : ScraperState) (p : Provider) : ScraperState :=
  let ps := getState s p
  setState s p
    { ps with rateLimit := { ps.rateLimit with errors := ps.rateLimit.errors + 1 } }

/-- Body of `isRateLimited(provider)` acting on the single provider's state:
not limited means usable; a set `resetAt` that has elapsed
(`new Date() >= resetAt`) is lazily cleared together with the limited flag;
otherwise the provider is still limited. -/
def isRateLimitedPure (now : Nat) (ps : ProviderState) : Bool × ProviderState :=
  if ps.rateLimit.isLimited = false then (false, ps)
  else
    match ps.rateLimit.resetAt with
    | some resetAt =>
        if resetAt ≤ now then
          (false, { ps with rateLimit := { ps.rateLimit with isLimited := false, resetAt := none } })
        else (true, ps)
    | none => (true, ps)

/-- The boolean answer of `isRateLimited(provider)` on a given state. -/
def rateLimitedNow (now : Nat) (ps : ProviderState) : Bool :=
  (isRateLimitedPure now ps).1

/-- Read `isRateLimited(provider)`. The read is also a write: the lazily
cleared (or unchanged) provider state is written back. Returns the boolean
answer together with the possibly-updated state. -/
def isRateLimited (now : Nat) (s : ScraperState) (p : Provider) : Bool × ScraperState :=
  let r := isRateLimitedPure now (getState s p)
  (r.1, setState s p r.2)

/-- Credentials present in the environment: `EXA_API_KEY`, and
`FIRECRAWL_API_KEY || FC_API_KEY` combined into one flag. -/
structure Env where
  exaKey : Bool
  fcKey : Bool
deriving DecidableEq, Repr

/-- Availability check of each adapter (`adapter.available()`): a credential
presence check for the remote adapters, constantly `true` for cheerio. -/
def adapterAvailable (env : Env) : Provider → Bool
  | .exa => env.exaKey
  | .firecrawl => env.fcKey
  | .cheerio => true

/-- Filtering loop of `getAvailableProvidersInternal`: keep the providers with
`adapter.available() && !isRateLimited(p)`, threading the state because the
`isRateLimited` reads may lazily clear expired limits. -/
def filterUsable (env : Env) (now : Nat) :
    List Provider → ScraperState → List Provider × ScraperState
  | [], s => ([], s)
  | p :: ps, s =>
      let read := isRateLimited now s p
      let rest := filterUsable env now ps read.2
      if adapterAvailable env p = true ∧ read.1 = false then (p :: rest.1, rest.2)
      else (rest.1, rest.2)

/-- `getAvailableProvidersInternal()` (also exported as
`getAvailableProviders` / `getAvailableCrawlingProviders`). -/
def getAvailableProvidersInternal (env : Env) (now : Nat) (s : ScraperState) :
    List Provider × ScraperState :=
  filterUsable env now [Provider.exa, Provider.firecrawl, Provider.cheerio] s

/-- JavaScript `s.startsWith(pre)`, as a prefix test on the character
sequences. -/
def jsStartsWith (s pre : String) : Bool :=
  pre.data.isPrefixOf s.data

/-- JavaScript `s.includes(c)` for a single character, as a membership test
on the character sequence. -/
def jsIncludesChar (s : String) (c : Char) : Bool :=
  s.data.contains c

/-- JavaScript `a || b` on an optional string with a string default: `a` when
it is present and truthy (non-empty), otherwise `b`. -/
def jsOrStr (a : Option String) (b : String) : String :=
  match a with
  | some v => if v = "" then b else v
  | none => b

/-- JavaScript `a || b` where both sides are optional strings. -/
def jsOrOpt (a b : Option String) : Option String :=
  match a with
  | some v => if v = "" then b else some v
  | none => b

/-- JavaScript `a || b` on an optional number with a number default
(`0` is falsy). -/
def jsOrNat (a : Option Nat) (b : Nat) : Nat :=
  match a with
  | some v => if v = 0 then b else v
  | none => b

/-- JavaScript chain `a1 || a2 || ... || d` over optional strings with a
string default: the first present non-empty entry, else `d`. -/
def firstTruthy (l : List (Option String)) (d : String) : String :=
  match l with
  | [] => d
  | a :: rest => jsOrStr a (firstTruthy rest d)

/-- Truthiness of an optional string (present and non-empty). -/
def truthyStr (a : Option String) : Bool :=
  match a with
  | some v => v ≠ ""
  | none => false

/-- JavaScript `opts.f !== false` on an optional boolean. -/
def jsNotFalse (a : Option Bool) : Bool :=
  match a with
  | some false => false
  | _ => true

/-- Truncation `if (s && maxChars && s.length > maxChars) s = s.substring(0, maxChars)`
applied by the normalizers (note `maxChars = 0` is falsy, hence no cut). -/
def truncStr (maxChars : Option Nat) (s : String) : String :=
  match maxChars with
  | some n => if n ≠ 0 ∧ n < s.length then s.take n else s
  | none => s

/-- Truncation of an optional string (`markdown`), skipped when absent. -/
def truncOpt (maxChars : Option Nat) (s : Option String) : Option String :=
  match s with
  | some v => some (truncStr maxChars v)
  | none => none

/-- Caller options of `scrape` (`ScrapeOptions`); `none` models an absent or
`undefined` field, which the source code treats identically (all accesses go
through truthiness or `!== false` tests). -/
structure ScrapeOptions where
  provider : Option Provider := none
  fallback : Option Bool := none
  markdown : Option Bool := none
  html : Option Bool := none
  maxChars : Option Nat := none
deriving DecidableEq, Repr

/-- Caller options of `crawl` (`CrawlOptions` extends the scrape options). -/
structure CrawlOptions where
  provider : Option Provider := none
  fallback : Option Bool := none
  markdown : Option Bool := none
  html : Option Bool := none
  maxChars : Option Nat := none
  maxSubpages : Option Nat := none
  maxDepth : Option Nat := none
  concurrency : Option Nat := none
  sameDomainOnly : Option Bool := none
deriving DecidableEq, Repr

/-- Display of a provider name (the string literal used in the source). -/
def providerName : Provider → String
  | .exa => "exa"
  | .firecrawl => "firecrawl"
  | .cheerio => "cheerio"

/-- Template interpolation of an optional provider
(an absent preference prints as `undefined`). -/
def showOptProvider : Option Provider → String
  | some p => providerName p
  | none => "undefined"

/-- Comparator of the sorted fallback of `selectProvider`: most recent
success first (presence of `lastSuccess`), then fewest recorded errors.
`true` means the comparator returned `<= 0` (keep `a` before `b`). -/
def selectCompare (s : ScraperState) (a b : Provider) : Bool :=
  let sa := getState s a
  let sb := getState s b
  if sa.lastSuccess.isSome ∧ sb.lastSuccess.isNone then true
  else if sa.lastSuccess.isNone ∧ sb.lastSuccess.isSome then false
  else if sa.rateLimit.errors < sb.rateLimit.errors then true
  else if sb.rateLimit.errors < sa.rateLimit.errors then false
  else true

/-- Tail of `selectProvider` after the preference checks: the fixed priority
order Cheerio > Exa > Firecrawl, and (unreachably, since `available` is a
non-empty subset of those three) the stable sort by recent success and error
count. -/
def priorityOrSorted (s : ScraperState) (available : List Provider) : Option Provider :=
  match [Provider.cheerio, Provider.exa, Provider.firecrawl].find?
      (fun p => p ∈ available) with
  | some p => some p
  | none => (available.mergeSort (selectCompare s)).head?

/-- Selection policy `selectProvider(prefer, fallback, options)`. Returns the
chosen provider (or none) and the state after the availability reads.
`wantHtml` is the truthiness of `options?.html`. -/
def selectProvider (env : Env) (now : Nat) (s : ScraperState)
    (prefer : Option Provider) (fallback : Bool) (wantHtml : Bool) :
    Option Provider × ScraperState :=
  let av := getAvailableProvidersInternal env now s
  let available := av.1
  let s1 := av.2
  if available = [] then (none, s1)
  else if wantHtml = true ∧ prefer = none ∧ Provider.firecrawl ∈ available then
    (some Provider.firecrawl, s1)
  else
    match prefer with
    | some p =>
        if p ∈ available then (some p, s1)
        else if fallback = false then (none, s1)
        else (priorityOrSorted s1 available, s1)
    | none => (priorityOrSorted s1 available, s1)

/-- Error object thrown by the library: the message, and the `isRateLimit`
flag carried by `RateLimitError`s (absent on plain errors, i.e. `false`
after the `(error as RateLimitError)?.isRateLimit || false` read). -/
structure ScrapeError where
  msg : String
  isRateLimit : Bool := false
deriving DecidableEq, Repr

/-- Recognized metadata keys of a result (`ScrapeResult.metadata`). The
provider-specific passthrough keys spread from the raw provider payload are
not modelled; no verified claim concerns them. -/
structure Metadata where
  title : Option String := none
  description : Option String := none
  language : Option String := none
  author : Option String := none
  publishedDate : Option String := none
  image : Option String := none
  favicon : Option String := none
  statusCode : Option Nat := none
  keywords : Option String := none
  sourceURL : Option String := none
  excerpt : Option String := none
  siteName : Option String := none
deriving DecidableEq, Repr

/-- Result of a single scrape (`ScrapeResult`). -/
structure ScrapeResult where
  url : String
  text : String
  markdown : Option String := none
  html : Option String := none
  metadata : Metadata := {}
  provider : Provider
deriving DecidableEq, Repr

/-- Behavior of one adapter's `scrape`/`crawl` call for the request at hand:
either a result, or a thrown error (whose `isRateLimit` flag drives the
fallback orchestrator). -/
inductive AdapterOutcome where
  | ok (r : ScrapeResult)
  | fail (e : ScrapeError)
deriving DecidableEq, Repr

/-- Outcome of a full `scrape`/`crawl` run: the final tracker state, the
returned result or thrown error, and the providers whose adapters were
actually invoked, in invocation order. -/
structure RunResult where
  state : ScraperState
  result : Except ScrapeError ScrapeResult
  attempted : List Provider
deriving Repr

/-- Provider-specific ordered alternate list used on a rate-limit failure. -/
def alternatives : Provider → List Provider
  | .exa => [.firecrawl, .cheerio]
  | .firecrawl => [.exa, .cheerio]
  | .cheerio => [.exa, .firecrawl]

/-- The alternate loop of `tryWithFallback`: walk the alternates, skip the
ones not usable (`altAdapter.available() && !isRateLimited(alt)`), invoke the
others, recording each outcome, and stop at the first success. Returns the
state, the first success (if any), and the alternates actually invoked. -/
def attemptAlternatives (env : Env) (now : Nat) (outcome : Provider → AdapterOutcome) :
    List Provider → ScraperState → ScraperState × Option ScrapeResult × List Provider
  | [], s => (s, none, [])
  | alt :: rest, s =>
      let read := isRateLimited now s alt
      if adapterAvailable env alt = true ∧ read.1 = false then
        match outcome alt with
        | .ok r => (recordSuccess now read.2 alt, some r, [alt])
        | .fail e =>
            let s2 :=
              if e.isRateLimit then recordRateLimit now read.2 alt
              else recordError read.2 alt
            let next := attemptAlternatives env now outcome rest s2
            (next.1, next.2.1, alt :: next.2.2)
      else attemptAlternatives env now outcome rest read.2

/-- Fallback orchestrator `tryWithFallback(url, options, provider)` (identical
in `scraper.ts` and `crawler.ts`): invoke the selected adapter; on success
record it; on a rate-limit failure record the limit and, when fallback is
enabled, walk the alternates; on any other failure record a plain error and
re-throw. `fallback` is the merged `options.fallback !== false`. -/
def tryWithFallback (env : Env) (now : Nat) (outcome : Provider → AdapterOutcome)
    (fallback : Bool) (p : Provider) (s : ScraperState) : RunResult :=
  match outcome p with
  | .ok r => ⟨recordSuccess now s p, .ok r, [p]⟩
  | .fail e =>
      if e.isRateLimit then
        let s1 := recordRateLimit now s p
        if fallback then
          let alts := attemptAlternatives env now outcome (alternatives p) s1
          match alts.2.1 with
          | some r => ⟨alts.1, .ok r, p :: alts.2.2⟩
          | none => ⟨alts.1, .error e, p :: alts.2.2⟩
        else ⟨s1, .error e, [p]⟩
      else ⟨recordError s p, .error e, [p]⟩

/-- Error thrown when no backend is usable at all. -/
def noProvidersError : ScrapeError :=
  { msg := "No scraping providers available. Set EXA_API_KEY or FIRECRAWL_API_KEY, or use cheerio provider" }

/-- Error thrown when a specific provider was requested with fallback
disabled and is not usable. -/
def providerUnavailableError (prefer : Option Provider) : ScrapeError :=
  { msg := "Provider \"" ++ showOptProvider prefer ++ "\" not available and fallback disabled" }

/-- Entry point `scrape(url, options)` (and, with the identical dispatch
logic of `crawler.ts`, `crawl(url, options)`): merge defaults, run the
selection policy, handle the no-provider branches, and delegate to the
fallback orchestrator. -/
def scrape (env : Env) (now : Nat) (outcome : Provider → AdapterOutcome)
    (options : ScrapeOptions) (s : ScraperState) : RunResult :=
  let fallbackEnabled := jsNotFalse options.fallback
  let sel := selectProvider env now s options.provider fallbackEnabled
    (options.html = some true)
  match sel.1 with
  | some p => tryWithFallback env now outcome fallbackEnabled p sel.2
  | none =>
      if adapterAvailable env .exa = false ∧ adapterAvailable env .firecrawl = false ∧
          adapterAvailable env .cheerio = false then
        ⟨sel.2, .error noProvidersError, []⟩
      else if fallbackEnabled then
        let tryProvider := options.provider.getD
          (if adapterAvailable env .cheerio then .cheerio
           else if adapterAvailable env .exa then .exa else .firecrawl)
        tryWithFallback env now outcome fallbackEnabled tryProvider sel.2
      else ⟨sel.2, .error (providerUnavailableError options.provider), []⟩

/-- Metadata block of a Firecrawl payload (`FirecrawlMetadata`); the open
index-signature passthrough keys are not modelled. -/
structure FirecrawlMetadata where
  sourceURL : Option String := none
  title : Option String := none
  description : Option String := none
  language : Option String := none
  keywords : Option String := none
  ogImage : Option String := none
  statusCode : Option Nat := none
deriving DecidableEq, Repr

/-- Data block of a Firecrawl payload (`FirecrawlResult` in the source;
`links` is only present on the crawler side). -/
structure FirecrawlData where
  markdown : Option String := none
  html : Option String := none
  metadata : Option FirecrawlMetadata := none
  links : Option (List String) := none
deriving DecidableEq, Repr

/-- Raw response of the Firecrawl SDK (`FirecrawlResponse`): either a nested
`data` block or the fields inlined at the top level. -/
structure FirecrawlResponse where
  data : Option FirecrawlData := none
  markdown : Option String := none
  html : Option String := none
  metadata : Option FirecrawlMetadata := none
  links : Option (List String) := none
deriving DecidableEq, Repr

/-- Extraction `firecrawlResponse.data || { markdown, html, metadata, links }`
performed by both Firecrawl adapters before normalization. -/
def firecrawlExtractData (resp : FirecrawlResponse) : FirecrawlData :=
  match resp.data with
  | some d => d
  | none =>
      { markdown := resp.markdown, html := resp.html, metadata := resp.metadata,
        links := resp.links }

/-- Normalizer `normalizeFirecrawlResult(data, url)` of the scraper. Note that
it takes no options: neither `maxChars` truncation nor any other
request option is applied to the Firecrawl payload. -/
def normalizeFirecrawlResult (data : FirecrawlData) (url : String) : ScrapeResult :=
  let md := data.metadata
  { url := jsOrStr (md.bind FirecrawlMetadata.sourceURL) url
    markdown := data.markdown
    html := data.html
    text := jsOrStr data.markdown (jsOrStr data.html "")
    metadata :=
      { title := md.bind FirecrawlMetadata.title
        description := md.bind FirecrawlMetadata.description
        language := md.bind FirecrawlMetadata.language
        keywords := md.bind FirecrawlMetadata.keywords
        image := md.bind FirecrawlMetadata.ogImage
        statusCode := md.bind FirecrawlMetadata.statusCode
        sourceURL := some (jsOrStr (md.bind FirecrawlMetadata.sourceURL) url) }
    provider := .firecrawl }

/-- Response handling of `firecrawlAdapter.scrape(url, options)`: fail when
no API key is configured, otherwise extract the data block and normalize.
The `options` build only request parameters (`formats`, `maxAge`) and are
never consulted when shaping the response. -/
def firecrawlScrape (hasKey : Bool) (resp : FirecrawlResponse) (url : String)
    (options : ScrapeOptions) : Except ScrapeError ScrapeResult :=
  if hasKey = false then
    .error { msg := "Firecrawl not available: FIRECRAWL_API_KEY not set" }
  else
    let _ := options
    .ok (normalizeFirecrawlResult (firecrawlExtractData resp) url)

/-- Raw Exa payload (`ExaResult`): optional content fields plus the
server-side discovered `subpages`, which are themselves Exa payloads (the
scraper-side interface simply never populates them). The open passthrough
keys are not modelled. -/
inductive ExaResult where
  | mk
      (url : Option String)
      (text : Option String)
      (html : Option String)
      (title : Option String)
      (summary : Option String)
      (author : Option String)
      (publishedDate : Option String)
      (image : Option String)
      (favicon : Option String)
      (subpages : List ExaResult)
deriving Repr

/-- Field accessor. -/
def ExaResult.url : ExaResult → Option String
  | .mk u _ _ _ _ _ _ _ _ _ => u

/-- Field accessor. -/
def ExaResult.text : ExaResult → Option String
  | .mk _ t _ _ _ _ _ _ _ _ => t

/-- Field accessor. -/
def ExaResult.html : ExaResult → Option String
  | .mk _ _ h _ _ _ _ _ _ _ => h

/-- Field accessor. -/
def ExaResult.title : ExaResult → Option String
  | .mk _ _ _ ti _ _ _ _ _ _ => ti

/-- Field accessor. -/
def ExaResult.summary : ExaResult → Option String
  | .mk _ _ _ _ su _ _ _ _ _ => su

/-- Field accessor. -/
def ExaResult.author : ExaResult → Option String
  | .mk _ _ _ _ _ au _ _ _ _ => au

/-- Field accessor. -/
def ExaResult.publishedDate : ExaResult → Option String
  | .mk _ _ _ _ _ _ pd _ _ _ => pd

/-- Field accessor. -/
def ExaResult.image : ExaResult → Option String
  | .mk _ _ _ _ _ _ _ im _ _ => im

/-- Field accessor. -/
def ExaResult.favicon : ExaResult → Option String
  | .mk _ _ _ _ _ _ _ _ fa _ => fa

/-- Field accessor. -/
def ExaResult.subpages : ExaResult → List ExaResult
  | .mk _ _ _ _ _ _ _ _ _ s => s

/-- Normalizer `normalizeExaResult(result, url, options)` of the scraper: the
provider text is passed through as `text`/`markdown` verbatim (no local
truncation; a `maxCharacters` hint may have been sent to the remote API). -/
def normalizeExaResult (result : ExaResult) (url : String) (options : ScrapeOptions) :
    ScrapeResult :=
  { url := jsOrStr result.url url
    text := result.text.getD ""
    markdown := result.text
    html := jsOrOpt result.html (if options.html = some true then result.text else none)
    metadata :=
      { title := result.title
        description := result.summary
        author := result.author
        publishedDate := result.publishedDate
        image := result.image
        favicon := result.favicon
        sourceURL := some (jsOrStr result.url url) }
    provider := .exa }

/-- Result node of a crawl (`CrawlResult extends ScrapeResult`): an optional
tree of subpages and an optional depth. -/
inductive CrawlResult where
  | mk
      (url : String)
      (text : String)
      (markdown : Option String)
      (html : Option String)
      (metadata : Metadata)
      (provider : Provider)
      (subpages : Option (List CrawlResult))
      (depth : Option Nat)
deriving Repr

/-- Field accessor. -/
def CrawlResult.url : CrawlResult → String
  | .mk u _ _ _ _ _ _ _ => u

/-- Field accessor. -/
def CrawlResult.text : CrawlResult → String
  | .mk _ t _ _ _ _ _ _ => t

/-- Field accessor. -/
def CrawlResult.markdown : CrawlResult → Option String
  | .mk _ _ m _ _ _ _ _ => m

/-- Field accessor. -/
def CrawlResult.html : CrawlResult → Option String
  | .mk _ _ _ h _ _ _ _ => h

/-- Field accessor. -/
def CrawlResult.metadata : CrawlResult → Metadata
  | .mk _ _ _ _ md _ _ _ => md

/-- Field accessor. -/
def CrawlResult.provider : CrawlResult → Provider
  | .mk _ _ _ _ _ p _ _ => p

/-- Field accessor. -/
def CrawlResult.subpages : CrawlResult → Option (List CrawlResult)
  | .mk _ _ _ _ _ _ s _ => s

/-- Field accessor. -/
def CrawlResult.depth : CrawlResult → Option Nat
  | .mk _ _ _ _ _ _ _ d => d

/-- Assignment `result.subpages = ...`. -/
def CrawlResult.withSubpages : CrawlResult → Option (List CrawlResult) → CrawlResult
  | .mk u t m h md p _ d, s => .mk u t m h md p s d

/-- Assignment `...r, depth: ...` (object spread with a replaced depth). -/
def CrawlResult.withDepth : CrawlResult → Option Nat → CrawlResult
  | .mk u t m h md p s _, d => .mk u t m h md p s d

/-- Parsed URL as used by the source: the serialized absolute form
(`.href`) and the host (`.hostname`). -/
structure Url where
  href : String
  hostname : String
deriving DecidableEq, Repr

/-- Readability article (`reader.parse()` output fields the source reads). -/
structure Article where
  title : Option String := none
  byline : Option String := none
  content : Option String := none
  textContent : Option String := none
  excerpt : Option String := none
  siteName : Option String := none
  lang : Option String := none
deriving DecidableEq, Repr

/-- Results of the cheerio metadata queries run by the normalizers
(`$("title").text()`, the `meta`/`link` attribute lookups, and
`document.documentElement.lang`). -/
structure MetaScan where
  titleTag : Option String := none
  ogTitle : Option String := none
  metaDescription : Option String := none
  ogDescription : Option String := none
  metaAuthor : Option String := none
  articleAuthor : Option String := none
  articlePublished : Option String := none
  metaDate : Option String := none
  ogImage : Option String := none
  twitterImage : Option String := none
  iconHref : Option String := none
  shortcutIconHref : Option String := none
  docLang : Option String := none
deriving DecidableEq, Repr

/-- Platform libraries the crawler calls out to, passed in as explicit
functions: `fetch` (returning the body, or `none` for a network failure or a
non-ok response), Readability parsing, the cheerio metadata queries, the
`a[href]` attribute scan in document order, WHATWG URL resolution
(`new URL(href, base)`) and parsing (`new URL(s)`, `none` models a throw),
DOMPurify sanitization, Turndown conversion, and JSDOM body-text
extraction. -/
structure WebDeps where
  fetch : String → Option String
  readability : String → String → Option Article
  metaOf : String → MetaScan
  hrefsOf : String → List String
  resolve : String → String → Option Url
  parse : String → Option Url
  sanitize : String → String
  turndown : String → String
  extractText : String → String

/-- One anchor's contribution inside the `$("a[href]").each` loop of
`extractLinks`: skip empty/fragment/mailto targets, resolve against the base
(a failed resolution or re-parse models the silently caught throw), drop
cross-host links when `sameDomainOnly`, and keep only `http`/`https`
results. -/
def linkOf (deps : WebDeps) (baseUrl baseDomain : String) (sameDomainOnly : Bool)
    (href : String) : Option String :=
  if href = "" ∨ jsStartsWith href "#" = true ∨ jsStartsWith href "mailto:" = true then none
  else
    match deps.resolve href baseUrl with
    | none => none
    | some u =>
        match deps.parse u.href with
        | none => none
        | some u2 =>
            if sameDomainOnly = true ∧ u2.hostname ≠ baseDomain then none
            else if jsStartsWith u.href "http://" = true ∨ jsStartsWith u.href "https://" = true then
              some u.href
            else none

/-- Deduplication kernel of `Array.from(new Set(links))`: keep the first
occurrence of each element, in first-seen order. -/
def dedupFirstAux (seen : List String) : List String → List String
  | [] => []
  | x :: xs => if x ∈ seen then dedupFirstAux seen xs else x :: dedupFirstAux (x :: seen) xs

/-- Deduplication `Array.from(new Set(links))`. -/
def dedupFirst (l : List String) : List String := dedupFirstAux [] l

/-- Links pushed by the anchor loop of `extractLinks` before deduplication,
in document order. -/
def rawLinks (deps : WebDeps) (html baseUrl baseDomain : String) (sameDomainOnly : Bool) :
    List String :=
  (deps.hrefsOf html).filterMap (linkOf deps baseUrl baseDomain sameDomainOnly)

/-- Link extractor `extractLinks(html, baseUrl, sameDomainOnly)`: `none`
models the throw on an unparsable base URL, otherwise the deduplicated
filtered anchors. -/
def extractLinks (deps : WebDeps) (html baseUrl : String) (sameDomainOnly : Bool) :
    Option (List String) :=
  match deps.parse baseUrl with
  | none => none
  | some baseU =>
      some (dedupFirst (rawLinks deps html baseUrl baseU.hostname sameDomainOnly))

/-- Normalizer `normalizeCheerioResultToCrawl(html, url, options, depth)`
(and, dropping the depth field, `normalizeCheerioResult` of the scraper):
Readability extraction (throwing on a null article), cheerio metadata
queries, DOMPurify sanitization, Turndown conversion, and independent
`maxChars` truncation of `text` and `markdown`. -/
def normalizeCheerioResultToCrawl (deps : WebDeps) (html url : String)
    (options : CrawlOptions) (depth : Nat) : Except String CrawlResult :=
  match deps.readability html url with
  | none => .error ("Failed to parse readable content from: " ++ url)
  | some article =>
      let m := deps.metaOf html
      let title := firstTruthy [article.title, m.titleTag, m.ogTitle] ""
      let description := firstTruthy [m.metaDescription, m.ogDescription] ""
      let author := firstTruthy [m.metaAuthor, m.articleAuthor, article.byline] ""
      let publishedDate := firstTruthy [m.articlePublished, m.metaDate] ""
      let image := firstTruthy [m.ogImage, m.twitterImage] ""
      let favicon := firstTruthy [m.iconHref, m.shortcutIconHref] ""
      let htmlContent := deps.sanitize (jsOrStr article.content html)
      let markdown : Option String :=
        if jsNotFalse options.markdown = true then some (deps.turndown htmlContent) else none
      let text := truncStr options.maxChars (article.textContent.getD "")
      let markdown := truncOpt options.maxChars markdown
      .ok (CrawlResult.mk url text markdown
        (if options.html = some true then some htmlContent else none)
        { title := some title, description := some description, author := some author,
          publishedDate := some publishedDate, image := some image, favicon := some favicon,
          language := some (firstTruthy [article.lang, m.docLang] ""),
          excerpt := article.excerpt, siteName := article.siteName,
          sourceURL := some url }
        .cheerio none (some depth))

mutual

/-- Normalizer `normalizeExaResultToCrawl(result, url, options, depth)`:
shape the current node (HTML detection, markdown derivation, independent
`maxChars` truncation of `text` and `markdown`) and recursively normalize at
`depth + 1` the first `maxSubpages` native subpages — without ever consulting
`maxDepth`. -/
def normalizeExaResultToCrawl (deps : WebDeps) (options : CrawlOptions) :
    ExaResult → String → Nat → CrawlResult
  | .mk u t h ti su au pd im fa subs, url, depth =>
      let exaText := t.getD ""
      let exaHtml := h.getD ""
      let isHtml := jsIncludesChar exaText '<' && jsIncludesChar exaText '>'
      let htmlContent :=
        if exaHtml = "" then (if isHtml = true then exaText else "") else exaHtml
      let text := if isHtml = true then deps.extractText exaText else exaText
      let markdown : Option String :=
        if jsNotFalse options.markdown = true then
          if isHtml = false ∧ exaText ≠ "" then some exaText
          else if htmlContent ≠ "" then some (deps.turndown (deps.sanitize htmlContent))
          else none
        else none
      let markdown := truncOpt options.maxChars markdown
      let text := truncStr options.maxChars text
      let maxSubpages := jsOrNat options.maxSubpages 0
      let subpages :=
        if subs.length > 0 then
          normalizeExaSubpages deps options maxSubpages subs url (depth + 1)
        else []
      CrawlResult.mk (jsOrStr u url) text markdown
        (if options.html = some true then some htmlContent else none)
        { title := ti, description := su, author := au, publishedDate := pd,
          image := im, favicon := fa, sourceURL := some (jsOrStr u url) }
        .exa
        (if subpages.length > 0 then some subpages else none)
        (some depth)

/-- Loop over `result.subpages.slice(0, maxSubpages)` of
`normalizeExaResultToCrawl`, with the slice bound carried as a budget; each
subpage is normalized against `subpage.url || url` at the child depth. -/
def normalizeExaSubpages (deps : WebDeps) (options : CrawlOptions) :
    Nat → List ExaResult → String → Nat → List CrawlResult
  | 0, _, _, _ => []
  | _ + 1, [], _, _ => []
  | n + 1, s :: ss, url, childDepth =>
      normalizeExaResultToCrawl deps options s (jsOrStr s.url url) childDepth ::
        normalizeExaSubpages deps options n ss url childDepth

end

/-- Normalizer `normalizeFirecrawlResultToCrawl(data, url, depth)`: like the
scraper's Firecrawl normalizer (no options, no truncation), plus the depth
field; subpages are never set here. -/
def normalizeFirecrawlResultToCrawl (data : FirecrawlData) (url : String) (depth : Nat) :
    CrawlResult :=
  let md := data.metadata
  CrawlResult.mk (jsOrStr (md.bind FirecrawlMetadata.sourceURL) url)
    (jsOrStr data.markdown (jsOrStr data.html ""))
    data.markdown data.html
    { title := md.bind FirecrawlMetadata.title
      description := md.bind FirecrawlMetadata.description
      language := md.bind FirecrawlMetadata.language
      keywords := md.bind FirecrawlMetadata.keywords
      image := md.bind FirecrawlMetadata.ogImage
      statusCode := md.bind FirecrawlMetadata.statusCode
      sourceURL := some (jsOrStr (md.bind FirecrawlMetadata.sourceURL) url) }
    .firecrawl none (some depth)

/-- Child loop of `crawlRecursive` (the `pMap` over `linksToCrawl`): attempt
each child with the given step function, swallowing failures (a failed child
is simply omitted), threading the shared visited set; the result list keeps
the candidate order. The `concurrency` bound only schedules the in-flight
fetches and is not observable in this sequential embedding. -/
def crawlKids (step : String → List String → Except String CrawlResult × List String) :
    List String → List String → List CrawlResult × List String
  | [], visited => ([], visited)
  | l :: ls, visited =>
      match step l visited with
      | (.ok r, v1) =>
          let rest := crawlKids step ls v1
          (r :: rest.1, rest.2)
      | (.error _, v1) => crawlKids step ls v1

/-- Recursive engine `crawlRecursive(currentUrl, depth)` of
`cheerioAdapter.crawl`: refuse revisits and depth overruns, mark visited,
validate the URL, fetch, normalize at the current depth, and — when
`depth < maxDepth && maxSubpages > 0` — extract links, keep the first
`maxSubpages` unvisited ones and recurse on them at `depth + 1`, assigning
`subpages` whenever at least one candidate was attempted. The `fuel`
argument is an embedding artifact bounding the recursion; the entry point
supplies more fuel than the depth guard ever allows to be consumed. -/
def crawlStep (deps : WebDeps) (options : CrawlOptions) :
    Nat → String → Nat → List String → Except String CrawlResult × List String
  | 0, _, _, visited => (.error "Maximum crawl recursion exceeded", visited)
  | fuel + 1, currentUrl, depth, visited =>
      let maxDepth := options.maxDepth.getD 1
      let maxSubpages := jsOrNat options.maxSubpages 0
      let sameDomainOnly := jsNotFalse options.sameDomainOnly
      if currentUrl ∈ visited ∨ maxDepth < depth then
        (.error ("URL already visited or max depth reached: " ++ currentUrl), visited)
      else
        let visited1 := currentUrl :: visited
        match deps.parse currentUrl with
        | none => (.error ("Invalid URL: " ++ currentUrl), visited1)
        | some _ =>
            match deps.fetch currentUrl with
            | none => (.error ("HTTP error for " ++ currentUrl), visited1)
            | some html =>
                match normalizeCheerioResultToCrawl deps html currentUrl options depth with
                | .error e => (.error e, visited1)
                | .ok result =>
                    if depth < maxDepth ∧ 0 < maxSubpages then
                      let links := (extractLinks deps html currentUrl sameDomainOnly).getD []
                      let linksToCrawl :=
                        (links.filter (fun l => l ∉ visited1)).take maxSubpages
                      if 0 < linksToCrawl.length then
                        let kids := crawlKids
                          (fun l v => crawlStep deps options fuel l (depth + 1) v)
                          linksToCrawl visited1
                        (.ok (result.withSubpages (some kids.1)), kids.2)
                      else (.ok result, visited1)
                    else (.ok result, visited1)

/-- Entry point `cheerioAdapter.crawl(url, options)`: run the recursive
engine from depth 0 with a fresh visited set (the fuel `maxDepth + 1` covers
every depth the guard admits). -/
def cheerioCrawl (deps : WebDeps) (url : String) (options : CrawlOptions) :
    Except String CrawlResult :=
  (crawlStep deps options (options.maxDepth.getD 1 + 1) url 0 []).1

/-- Detail of a failed batch entry. -/
structure ErrorInfo where
  tag : String
  httpStatusCode : Option Nat := none
deriving DecidableEq, Repr

/-- One entry of a batch status list (`status: "success" | "error"` encoded
as a boolean). -/
structure BatchStatus where
  id : String
  success : Bool
  error : Option ErrorInfo := none
deriving DecidableEq, Repr

/-- Batch crawl result (`CrawlBatchResult`). -/
structure CrawlBatchResult where
  results : List CrawlResult
  statuses : List BatchStatus
deriving Repr

/-- HTTP status inference applied to failure messages
(`/404/.test(msg) ? 404 : /403/.test(msg) ? 403 : undefined`). -/
def inferHttpStatus (msg : String) : Option Nat :=
  if "404".toList <:+: msg.toList then some 404
  else if "403".toList <:+: msg.toList then some 403
  else none

/-- Batch crawl `cheerioAdapter.crawlBatch(urls, options)`: each root runs
its own independent crawl (fresh visited set); failures are contained to a
status entry and successes collected in input order. -/
def cheerioCrawlBatch (deps : WebDeps) (urls : List String) (options : CrawlOptions) :
    CrawlBatchResult :=
  match urls with
  | [] => ⟨[], []⟩
  | u :: rest =>
      let tail := cheerioCrawlBatch deps rest options
      match cheerioCrawl deps u options with
      | .ok r => ⟨r :: tail.results, ⟨u, true, none⟩ :: tail.statuses⟩
      | .error msg =>
          ⟨tail.results, ⟨u, false, some ⟨"CRAWL_ERROR", inferHttpStatus msg⟩⟩ :: tail.statuses⟩

/-- Response handling of `firecrawlAdapter.crawl(url, options)`: normalize
the payload at depth 0 and, when subpages were requested and the payload
lists links, crawl the first `min(maxSubpages, links.length)` of them through
the cheerio adapter (with `maxSubpages: 0` and `maxDepth: (maxDepth || 1) - 1`),
then re-depth the children to `(child.depth || 0) + 1`. -/
def firecrawlCrawl (deps : WebDeps) (hasKey : Bool) (resp : FirecrawlResponse)
    (url : String) (options : CrawlOptions) : Except String CrawlResult :=
  if hasKey = false then .error "Firecrawl not available: FIRECRAWL_API_KEY not set"
  else
    let data := firecrawlExtractData resp
    let result := normalizeFirecrawlResultToCrawl data url 0
    if 0 < jsOrNat options.maxSubpages 0 then
      match data.links with
      | some links =>
          let maxSubpages := min (jsOrNat options.maxSubpages 0) links.length
          let subpageUrls := links.take maxSubpages
          let sub := cheerioCrawlBatch deps subpageUrls
            { options with
              maxSubpages := some 0
              maxDepth := some (jsOrNat options.maxDepth 1 - 1) }
          .ok (result.withSubpages (some (sub.results.map
            (fun r => r.withDepth (some (jsOrNat r.depth 0 + 1))))))
      | none => .ok result
    else .ok result

/-- Property holding of the success value of an `Except`, trivially true on
an error (the claim constrains only what is returned). -/
def onOk {ε α : Type _} (e : Except ε α) (P : α → Prop) : Prop :=
  match e with
  | .ok a => P a
  | .error _ => True

/-- Every node of the tree carries an explicit depth, the root's being `d`
and each subpage's being its parent's plus one. -/
inductive SubpageDepths : Nat → CrawlResult → Prop where
  | intro (d : Nat) (r : CrawlResult)
      (hdepth : r.depth = some d)
      (hsub : ∀ subs, r.subpages = some subs → ∀ c ∈ subs, SubpageDepths (d + 1) c) :
      SubpageDepths d r

/-- Like `SubpageDepths`, with every depth additionally bounded by
`maxDepth`. -/
inductive DepthInv (maxDepth : Nat) : Nat → CrawlResult → Prop where
  | intro (d : Nat) (r : CrawlResult)
      (hdepth : r.depth = some d)
      (hle : d ≤ maxDepth)
      (hsub : ∀ subs, r.subpages = some subs → ∀ c ∈ subs, DepthInv maxDepth (d + 1) c) :
      DepthInv maxDepth d r

/-- No node of the tree carries an empty `subpages` sequence (the field is
either absent or non-empty). -/
inductive NoEmptySubs : CrawlResult → Prop where
  | intro (r : CrawlResult)
      (hne : r.subpages ≠ some [])
      (hsub : ∀ subs, r.subpages = some subs → ∀ c ∈ subs, NoEmptySubs c) :
      NoEmptySubs r

/-- Specification of a returned link list `out` of
`extractLinks(html, baseUrl, sameDomainOnly)` against the parsed base
`baseU`: the output is duplicate-free, is the raw anchor-loop output with
later duplicates removed (a sublist with the same members, i.e. first-seen
order), and every returned link is an absolute `http`/`https` URL coming
from some anchor whose target was non-empty, not a fragment, not a
`mailto:`, resolved successfully against the base, and — under
`sameDomainOnly` — lives on the base URL's host. -/
def ExtractLinksSpec (deps : WebDeps) (html baseUrl : String) (sameDomainOnly : Bool)
    (baseU : Url) (out : List String) : Prop :=
  out.Nodup ∧
  out.Sublist (rawLinks deps html baseUrl baseU.hostname sameDomainOnly) ∧
  (∀ x, x ∈ out ↔ x ∈ rawLinks deps html baseUrl baseU.hostname sameDomainOnly) ∧
  ∀ l ∈ out,
    (jsStartsWith l "http://" = true ∨ jsStartsWith l "https://" = true) ∧
    ∃ href ∈ deps.hrefsOf html,
      href ≠ "" ∧ jsStartsWith href "#" = false ∧ jsStartsWith href "mailto:" = false ∧
      ∃ u, deps.resolve href baseUrl = some u ∧ u.href = l ∧
        ∃ u2, deps.parse l = some u2 ∧
          (sameDomainOnly = true → u2.hostname = baseU.hostname)

/-- Projection of a scrape outcome to its `text` (`none` on a thrown
error). -/
def exceptText : Except ScrapeError ScrapeResult → Option String
  | .ok r => some r.text
  | .error _ => none

/-- Projection of a scrape outcome to its `markdown`. -/
def exceptMarkdown : Except ScrapeError ScrapeResult → Option (Option String)
  | .ok r => some r.markdown
  | .error _ => none

/-- Projection of a crawl outcome to its `subpages` field (`none` on a
thrown error, `some` of the field on success). -/
def crawlOkSubpages : Except String CrawlResult → Option (Option (List CrawlResult))
  | .ok r => some r.subpages
  | .error _ => none

/-- First entry of a node's `subpages` sequence. -/
def firstSub (r : CrawlResult) : Option CrawlResult :=
  r.subpages.bind List.head?

/-- Test fixture: a two-page site on host `a.example`. The root page
`https://a.example/` serves body `ROOT` linking to `https://a.example/b`,
whose fetch fails; the body `LINKS` exercises every anchor rule of the link
extractor; all other platform functions are identities or constants. -/
def testDeps : WebDeps :=
  { fetch := fun u => if u = "https://a.example/" then some "ROOT" else none
    readability := fun html _ =>
      if html = "ROOT" then
        some { title := some "Root", content := some "<p>hello</p>", textContent := some "hello" }
      else none
    metaOf := fun _ => {}
    hrefsOf := fun html =>
      if html = "ROOT" then ["https://a.example/b"]
      else if html = "LINKS" then
        ["", "#frag", "mailto:joe@a.example", "https://a.example/b",
         "https://b.example/c", "nope", "https://a.example/b"]
      else []
    resolve := fun href _ =>
      if href = "https://a.example/" then some ⟨"https://a.example/", "a.example"⟩
      else if href = "https://a.example/b" then some ⟨"https://a.example/b", "a.example"⟩
      else if href = "https://b.example/c" then some ⟨"https://b.example/c", "b.example"⟩
      else none
    parse := fun s =>
      if s = "https://a.example/" then some ⟨"https://a.example/", "a.example"⟩
      else if s = "https://a.example/b" then some ⟨"https://a.example/b", "a.example"⟩
      else if s = "https://b.example/c" then some ⟨"https://b.example/c", "b.example"⟩
      else none
    sanitize := id
    turndown := id
    extractText := id }

/-- Test fixture: initial tracker state. -/
def s0 : ScraperState := createRateLimitState

/-- Test fixture: no credentials configured. -/
def env0 : Env := { exaKey := false, fcKey := false }

/-- Test fixture: all credentials configured. -/
def envAll : Env := { exaKey := true, fcKey := true }

/-- Test fixture: every adapter throws a plain (non-rate-limit) error. -/
def outcomePlainFail : Provider → AdapterOutcome :=
  fun p => .fail { msg := providerName p ++ " plain failure" }

/-- Test fixture: every adapter throws a rate-limit-classified error. -/
def outcomeAllRateLimited : Provider → AdapterOutcome :=
  fun p => .fail { msg := providerName p ++ " rate limit", isRateLimit := true }

/-- Test fixture: a Firecrawl response carrying markdown `"ab"` and no
nested data block. -/
def respAB : FirecrawlResponse := { markdown := some "ab" }

/-- Test fixture: a Firecrawl response carrying no content at all. -/
def respEmpty : FirecrawlResponse := {}

/-- Test fixture: a Firecrawl response with markdown and one discovered
link. -/
def respLinked : FirecrawlResponse :=
  { markdown := some "hello", links := some ["https://a.example/b"] }

/-- Test fixture: a leaf Exa payload two levels down. -/
def exaGrand : ExaResult :=
  .mk (some "https://a.example/2") (some "grandchild text") none none none none none none none []

/-- Test fixture: an Exa payload one level down carrying a nested subpage. -/
def exaChild : ExaResult :=
  .mk (some "https://a.example/1") (some "child text") none none none none none none none
    [exaGrand]

/-- Test fixture: an Exa payload whose native subpages are nested two levels
deep, as the recursive `ExaResult.subpages` interface allows. -/
def exaRoot : ExaResult :=
  .mk (some "https://a.example/") (some "root text") none none none none none none none
    [exaChild]

/-- Test fixture: a crawl request asking for one subpage per page within
depth 1. -/
def c4opts : CrawlOptions := { maxSubpages := some 1, maxDepth := some 1 }

theorem getState_setState_same (s : ScraperState) (p : Provider) (ps : ProviderState) :
    getState (setState s p ps) p = ps := by
  cases p <;> rfl

theorem getState_setState_ne (s : ScraperState) (p : Provider) (ps : ProviderState)
    (q : Provider) (h : q ≠ p) : getState (setState s p ps) q = getState s q := by
  cases p <;> cases q <;> first | rfl | exact absurd rfl h

theorem setState_getState (s : ScraperState) (p : Provider) :
    setState s p (getState s p) = s := by
  cases p <;> rfl

theorem isRateLimited_fst (now : Nat) (s : ScraperState) (p : Provider) :
    (isRateLimited now s p).1 = rateLimitedNow now (getState s p) := rfl

theorem getState_isRateLimited_snd_ne (now : Nat) (s : ScraperState) (p q : Provider)
    (h : q ≠ p) : getState (isRateLimited now s p).2 q = getState s q :=
  getState_setState_ne _ _ _ _ h

theorem filterUsable_subset (env : Env) (now : Nat) :
    ∀ (l : List Provider) (s : ScraperState), (filterUsable env now l s).1 ⊆ l := by
  intro l
  induction l with
  | nil => intro s x hx; simp [filterUsable] at hx
  | cons q l ih =>
      intro s x hx
      unfold filterUsable at hx
      by_cases hk : adapterAvailable env q = true ∧ (isRateLimited now s q).1 = false
      · rw [if_pos hk] at hx
        rcases List.mem_cons.mp hx with h | h
        · simp [h]
        · exact List.mem_cons_of_mem _ (ih _ h)
      · rw [if_neg hk] at hx
        exact List.mem_cons_of_mem _ (ih _ hx)

theorem mem_filterUsable (env : Env) (now : Nat) :
    ∀ (l : List Provider) (s : ScraperState) (p : Provider), l.Nodup →
      (p ∈ (filterUsable env now l s).1 ↔
        p ∈ l ∧ adapterAvailable env p = true ∧
          rateLimitedNow now (getState s p) = false) := by
  intro l
  induction l with
  | nil => intro s p _; simp [filterUsable]
  | cons q l ih =>
      intro s p hnd
      have hql : q ∉ l := (List.nodup_cons.mp hnd).1
      have hnd2 : l.Nodup := (List.nodup_cons.mp hnd).2
      unfold filterUsable
      by_cases hpq : p = q
      · subst hpq
        have hrest : p ∉ (filterUsable env now l (isRateLimited now s p).2).1 :=
          fun hmem => hql (filterUsable_subset env now _ _ hmem)
        by_cases hk : adapterAvailable env p = true ∧ (isRateLimited now s p).1 = false
        · rw [if_pos hk]
          constructor
          · intro _
            exact ⟨List.mem_cons_self _ _, hk.1, by rw [← isRateLimited_fst]; exact hk.2⟩
          · intro _
            exact List.mem_cons_self _ _
        · rw [if_neg hk]
          constructor
          · intro hc
            exact absurd hc hrest
          · rintro ⟨-, ha, hb⟩
            exact (hk ⟨ha, by rw [isRateLimited_fst]; exact hb⟩).elim
      · have hframe : getState (isRateLimited now s q).2 p = getState s p :=
          getState_isRateLimited_snd_ne now s q p hpq
        have hih := ih (isRateLimited now s q).2 p hnd2
        rw [hframe] at hih
        by_cases hk : adapterAvailable env q = true ∧ (isRateLimited now s q).1 = false
        · rw [if_pos hk]
          rw [List.mem_cons, hih]
          simp only [List.mem_cons, hpq, false_or]
        · rw [if_neg hk]
          rw [hih]
          simp only [List.mem_cons, hpq, false_or]

theorem mem_getAvailableProviders (env : Env) (now : Nat) (s : ScraperState) (p : Provider) :
    p ∈ (getAvailableProvidersInternal env now s).1 ↔
      adapterAvailable env p = true ∧ rateLimitedNow now (getState s p) = false := by
  have h := mem_filterUsable env now [Provider.exa, Provider.firecrawl, Provider.cheerio]
    s p (by decide)
  have hmem : p ∈ [Provider.exa, Provider.firecrawl, Provider.cheerio] := by
    cases p <;> simp
  rw [getAvailableProvidersInternal, h]
  simp [hmem]

theorem selectProvider_prefer_unusable (env : Env) (now : Nat) (s : ScraperState)
    (p : Provider) (wantHtml : Bool)
    (h : adapterAvailable env p = false ∨ rateLimitedNow now (getState s p) = true) :
    (selectProvider env now s (some p) false wantHtml).1 = none := by
  have hmem : p ∉ (getAvailableProvidersInternal env now s).1 := by
    rw [mem_getAvailableProviders]
    rcases h with h | h <;> simp [h]
  unfold selectProvider
  by_cases he : (getAvailableProvidersInternal env now s).1 = []
  · simp [he]
  · simp [he, hmem]

/-- C5: if a preferred provider is specified, fallback is disabled, and the
preferred provider is not usable (no credentials, or currently
rate-limited), `scrape` — and `crawl`, whose dispatch logic is identical —
throws the provider-unavailable error and invokes no adapter at all: no
silent substitution occurs. -/
theorem scrape_preferred_unusable_no_fallback (env : Env) (now : Nat)
    (outcome : Provider → AdapterOutcome) (options : ScrapeOptions) (s : ScraperState)
    (p : Provider)
    (hprefer : options.provider = some p)
    (hfallback : options.fallback = some false)
    (hunusable : adapterAvailable env p = false ∨
      rateLimitedNow now (getState s p) = true) :
    (scrape env now outcome options s).result =
        .error (providerUnavailableError (some p)) ∧
      (scrape env now outcome options s).attempted = [] := by
  have hfb : jsNotFalse options.fallback = false := by rw [hfallback]; rfl
  have hsel := selectProvider_prefer_unusable env now s p
    (decide (options.html = some true)) hunusable
  have hch : adapterAvailable env Provider.cheerio = true := rfl
  unfold scrape
  simp only [hprefer, hfb, hsel, hch]
  simp

theorem scrape_preferred_unavailable_witness :
    (scrape env0 17 outcomePlainFail
        { provider := some Provider.exa, fallback := some false } s0).result =
      .error (providerUnavailableError (some Provider.exa)) ∧
    (scrape env0 17 outcomePlainFail
        { provider := some Provider.exa, fallback := some false } s0).attempted = [] :=
  scrape_preferred_unusable_no_fallback env0 17 outcomePlainFail
    { provider := some Provider.exa, fallback := some false } s0 Provider.exa rfl rfl
    (Or.inl rfl)

/-- C6: when the selected adapter fails with an error not classified as a
rate limit, `tryWithFallback` records a plain error against that provider
(only its error count changes), re-raises the very same error, and attempts
no alternate adapter — whatever the fallback flag says. -/
theorem tryWithFallback_plain_error_no_fallback (env : Env) (now : Nat)
    (outcome : Provider → AdapterOutcome) (fallback : Bool) (p : Provider)
    (s : ScraperState) (e : ScrapeError)
    (hout : outcome p = .fail e) (hrl : e.isRateLimit = false) :
    tryWithFallback env now outcome fallback p s =
      ⟨recordError s p, .error e, [p]⟩ := by
  unfold tryWithFallback
  rw [hout]
  simp [hrl]

theorem tryWithFallback_plain_error_witness :
    tryWithFallback envAll 5 outcomePlainFail true Provider.exa s0 =
      ⟨recordError s0 Provider.exa, .error { msg := "exa plain failure" }, [Provider.exa]⟩ :=
  tryWithFallback_plain_error_no_fallback envAll 5 outcomePlainFail true Provider.exa s0
    { msg := "exa plain failure" } (by decide) (by decide)

theorem attemptAlternatives_no_success (env : Env) (now : Nat)
    (outcome : Provider → AdapterOutcome) :
    ∀ (l : List Provider) (s : ScraperState),
      (∀ alt ∈ l, ∀ r, outcome alt ≠ .ok r) →
      (attemptAlternatives env now outcome l s).2.1 = none := by
  intro l
  induction l with
  | nil => intro s _; rfl
  | cons alt rest ih =>
      intro s hfail
      unfold attemptAlternatives
      have halt : ∀ r, outcome alt ≠ .ok r := hfail alt (List.mem_cons_self _ _)
      have hrest : ∀ q ∈ rest, ∀ r, outcome q ≠ .ok r :=
        fun q hq => hfail q (List.mem_cons_of_mem _ hq)
      by_cases hk : adapterAvailable env alt = true ∧ (isRateLimited now s alt).1 = false
      · rw [if_pos hk]
        cases hout : outcome alt with
        | ok r => exact absurd hout (halt r)
        | fail e => simpa using ih _ hrest
      · rw [if_neg hk]
        exact ih _ hrest

/-- C7: when the selected provider fails with a rate-limit-classified error
and no attempted alternate succeeds (each one fails or is skipped as not
usable), `tryWithFallback` re-raises the original provider's rate-limit
error — the very same error object, still carrying `isRateLimit` — rather
than a no-provider-available error. -/
theorem tryWithFallback_rateLimit_exhausted_rethrows (env : Env) (now : Nat)
    (outcome : Provider → AdapterOutcome) (fallback : Bool) (p : Provider)
    (s : ScraperState) (e : ScrapeError)
    (hout : outcome p = .fail e) (hrl : e.isRateLimit = true)
    (halts : ∀ alt ∈ alternatives p, ∀ r, outcome alt ≠ .ok r) :
    (tryWithFallback env now outcome fallback p s).result = .error e ∧
      e.isRateLimit = true := by
  refine ⟨?_, hrl⟩
  unfold tryWithFallback
  rw [hout]
  simp only [hrl, if_pos rfl]
  cases fallback with
  | false => rfl
  | true =>
      have hnone := attemptAlternatives_no_success env now outcome (alternatives p)
        (recordRateLimit now s p) halts
      simp [hnone]

theorem tryWithFallback_rateLimit_exhausted_witness :
    (tryWithFallback envAll 5 outcomeAllRateLimited true Provider.exa s0).result =
      .error { msg := "exa rate limit", isRateLimit := true } ∧
    ({ msg := "exa rate limit", isRateLimit := true } : ScrapeError).isRateLimit = true :=
  tryWithFallback_rateLimit_exhausted_rethrows envAll 5 outcomeAllRateLimited true
    Provider.exa s0 { msg := "exa rate limit", isRateLimit := true } (by decide) rfl
    (by intro alt _ r h; simp [outcomeAllRateLimited] at h)

/-- C8: after `recordRateLimit` marks a provider limited with
`resetAt = now + RATE_LIMIT_COOLDOWN_MS`, every `isRateLimited` read
strictly before `resetAt` answers `true`, leaves the state untouched and
keeps the provider out of `getAvailableProviders`; the first read at or
after `resetAt` answers `false` and lazily clears both the limited flag and
`resetAt`. The provider is never usable before `resetAt` elapses. -/
theorem rateLimit_cooldown_roundtrip (env : Env) (now t : Nat) (s : ScraperState)
    (p : Provider) :
    (getState (recordRateLimit now s p) p).rateLimit.resetAt =
        some (now + rateLimitCooldownMs) ∧
      (t < now + rateLimitCooldownMs →
        isRateLimited t (recordRateLimit now s p) p = (true, recordRateLimit now s p) ∧
          p ∉ (getAvailableProvidersInternal env t (recordRateLimit now s p)).1) ∧
      (now + rateLimitCooldownMs ≤ t →
        (isRateLimited t (recordRateLimit now s p) p).1 = false ∧
          (getState (isRateLimited t (recordRateLimit now s p) p).2 p).rateLimit.isLimited
              = false ∧
          (getState (isRateLimited t (recordRateLimit now s p) p).2 p).rateLimit.resetAt
              = none) := by
  have hget : getState (recordRateLimit now s p) p =
      { getState s p with
        rateLimit :=
          { (getState s p).rateLimit with
            isLimited := true
            errors := (getState s p).rateLimit.errors + 1
            resetAt := some (now + rateLimitCooldownMs) } } := by
    unfold recordRateLimit
    exact getState_setState_same _ _ _
  refine ⟨by rw [hget], fun hlt => ?_, fun hge => ?_⟩
  · have hpure : isRateLimitedPure t (getState (recordRateLimit now s p) p) =
        (true, getState (recordRateLimit now s p) p) := by
      rw [hget]
      unfold isRateLimitedPure
      simp [Nat.not_le.mpr hlt]
    constructor
    · show ((isRateLimitedPure t (getState (recordRateLimit now s p) p)).1,
          setState (recordRateLimit now s p) p
            (isRateLimitedPure t (getState (recordRateLimit now s p) p)).2) =
        (true, recordRateLimit now s p)
      rw [hpure]
      simp [setState_getState]
    · rw [mem_getAvailableProviders]
      rintro ⟨-, hfalse⟩
      simp [rateLimitedNow, hpure] at hfalse
  · have hpure : isRateLimitedPure t (getState (recordRateLimit now s p) p) =
        (false,
          { getState (recordRateLimit now s p) p with
            rateLimit :=
              { (getState (recordRateLimit now s p) p).rateLimit with
                isLimited := false
                resetAt := none } }) := by
      rw [hget]
      unfold isRateLimitedPure
      simp [hge]
    refine ⟨?_, ?_, ?_⟩
    · show (isRateLimitedPure t (getState (recordRateLimit now s p) p)).1 = false
      rw [hpure]
    · show (getState (setState _ p _) p).rateLimit.isLimited = false
      rw [getState_setState_same, hpure]
    · show (getState (setState _ p _) p).rateLimit.resetAt = none
      rw [getState_setState_same, hpure]

theorem rateLimit_cooldown_witness :
    isRateLimited 1000 (recordRateLimit 1000 s0 Provider.exa) Provider.exa =
        (true, recordRateLimit 1000 s0 Provider.exa) ∧
      Provider.exa ∉
        (getAvailableProvidersInternal envAll 1000 (recordRateLimit 1000 s0 Provider.exa)).1 :=
  (rateLimit_cooldown_roundtrip envAll 1000 1000 s0 Provider.exa).2.1 (by decide)

/-- C10: `recordSuccess(p)` stamps `lastSuccess` with the current time,
clears the limited flag and resets the error count to zero, while leaving
the provider's `available` flag and `resetAt` unchanged and leaving every
other provider's state untouched — one success erases the accumulated error
count used for tie-breaking. -/
theorem recordSuccess_frame (now : Nat) (s : ScraperState) (p : Provider) :
    getState (recordSuccess now s p) p =
        { available := (getState s p).available
          rateLimit :=
            { isLimited := false
              resetAt := (getState s p).rateLimit.resetAt
              errors := 0 }
          lastSuccess := some now } ∧
      ∀ q, q ≠ p → getState (recordSuccess now s p) q = getState s q := by
  constructor
  · unfold recordSuccess
    rw [getState_setState_same]
  · intro q hq
    unfold recordSuccess
    exact getState_setState_ne _ _ _ _ hq

theorem recordSuccess_frame_witness :
    getState (recordSuccess 7 s0 Provider.exa) Provider.exa =
        { available := (getState s0 Provider.exa).available
          rateLimit :=
            { isLimited := false
              resetAt := (getState s0 Provider.exa).rateLimit.resetAt
              errors := 0 }
          lastSuccess := some 7 } ∧
      getState (recordSuccess 7 s0 Provider.exa) Provider.firecrawl =
        getState s0 Provider.firecrawl :=
  ⟨(recordSuccess_frame 7 s0 Provider.exa).1,
    (recordSuccess_frame 7 s0 Provider.exa).2 Provider.firecrawl (by decide)⟩

/-- C1 (failing evaluation): on the Firecrawl path a request with
`maxChars = 1` still returns `text = "ab"` and `markdown = "ab"` of length
2 — `normalizeFirecrawlResult` applies no truncation and the request build
never forwards `maxChars` to the backend, contradicting the documented
truncation contract. -/
theorem firecrawl_ignores_maxChars :
    exceptText (firecrawlScrape true respAB "https://example.com"
        { maxChars := some 1 }) = some "ab" ∧
      exceptMarkdown (firecrawlScrape true respAB "https://example.com"
        { maxChars := some 1 }) = some (some "ab") ∧
      1 < "ab".length :=
  ⟨rfl, rfl, by decide⟩

theorem jsOrStr_ne_empty (a : Option String) (b : String) :
    jsOrStr a b ≠ "" ↔ (truthyStr a = true ∨ b ≠ "") := by
  cases a with
  | none => simp [jsOrStr, truthyStr]
  | some v =>
      by_cases hv : v = ""
      · subst hv; simp [jsOrStr, truthyStr]
      · simp [jsOrStr, truthyStr, hv]

theorem truncStr_ne_empty (maxChars : Option Nat) (s : String) :
    truncStr maxChars s ≠ "" ↔ s ≠ "" := by
  unfold truncStr
  cases maxChars with
  | none => exact Iff.rfl
  | some n =>
      show (if n ≠ 0 ∧ n < s.length then s.take n else s) ≠ "" ↔ s ≠ ""
      by_cases hc : n ≠ 0 ∧ n < s.length
      · rw [if_pos hc]
        have hdata : s.data ≠ [] := by
          intro hnil
          have : s.length = 0 := by simp [String.length, hnil]
          omega
        have hne : s ≠ "" := by
          intro hs
          exact hdata (by rw [hs])
        have htake : s.take n ≠ "" := by
          intro hs
          have : (s.take n).data = [] := by rw [hs]
          rw [String.data_take] at this
          rcases List.take_eq_nil_iff.mp this with h | h
          · exact hc.1 h
          · exact hdata h
        simp [htake, hne]
      · rw [if_neg hc]

theorem normalizeExa_text_eq (deps : WebDeps) (options : CrawlOptions)
    (u t h ti su au pd im fa : Option String) (subs : List ExaResult) (url : String)
    (d : Nat) :
    (normalizeExaResultToCrawl deps options (.mk u t h ti su au pd im fa subs) url d).text =
      truncStr options.maxChars
        (if (jsIncludesChar (t.getD "") '<' && jsIncludesChar (t.getD "") '>') = true
          then deps.extractText (t.getD "")
          else t.getD "") := rfl

/-- C2 amended: `text` is always present on a successful result but may be
empty — the normalizers default it to `""` rather than enforcing
non-emptiness. Exactly: on the Firecrawl path (the scrape and crawl
normalizers compute `text` identically) `text` is non-empty iff the
payload's markdown or html is a present non-empty string; on the Exa scrape
path iff the payload's `text` is present and non-empty; on the Exa crawl
path iff the payload's `text` — passed through body-text extraction when it
contains both `<` and `>` — is non-empty; on the cheerio path iff the
Readability article's `textContent` is present and non-empty (the
`maxChars` cut never empties a non-empty text because `maxChars = 0` is
treated as unset). -/
theorem text_presence_characterization :
    (∀ (data : FirecrawlData) (url : String),
        (normalizeFirecrawlResult data url).text ≠ "" ↔
          (truthyStr data.markdown = true ∨ truthyStr data.html = true)) ∧
      (∀ (data : FirecrawlData) (url : String) (depth : Nat),
          (normalizeFirecrawlResultToCrawl data url depth).text ≠ "" ↔
            (truthyStr data.markdown = true ∨ truthyStr data.html = true)) ∧
      (∀ (result : ExaResult) (url : String) (options : ScrapeOptions),
          (normalizeExaResult result url options).text ≠ "" ↔
            truthyStr result.text = true) ∧
      (∀ (deps : WebDeps) (options : CrawlOptions) (r : ExaResult) (url : String) (d : Nat),
          (normalizeExaResultToCrawl deps options r url d).text ≠ "" ↔
            (if (jsIncludesChar (r.text.getD "") '<' &&
                  jsIncludesChar (r.text.getD "") '>') = true
              then deps.extractText (r.text.getD "")
              else r.text.getD "") ≠ "") ∧
      (∀ (deps : WebDeps) (html url : String) (options : CrawlOptions) (depth : Nat),
          onOk (normalizeCheerioResultToCrawl deps html url options depth)
            (fun r => r.text ≠ "" ↔
              truthyStr ((deps.readability html url).bind Article.textContent) = true)) := by
  refine ⟨?_, ?_, ?_, ?_, ?_⟩
  · intro data url
    show jsOrStr data.markdown (jsOrStr data.html "") ≠ "" ↔ _
    rw [jsOrStr_ne_empty, jsOrStr_ne_empty]
    simp
  · intro data url depth
    show jsOrStr data.markdown (jsOrStr data.html "") ≠ "" ↔ _
    rw [jsOrStr_ne_empty, jsOrStr_ne_empty]
    simp
  · intro result url options
    show result.text.getD "" ≠ "" ↔ _
    cases h : result.text <;> simp [truthyStr]
  · intro deps options r url d
    cases r with
    | mk u t h ti su au pd im fa subs =>
        rw [normalizeExa_text_eq, truncStr_ne_empty]
        exact Iff.rfl
  · intro deps html url options depth
    unfold normalizeCheerioResultToCrawl
    cases hb : deps.readability html url with
    | none => exact trivial
    | some article =>
        show truncStr options.maxChars (article.textContent.getD "") ≠ "" ↔ _
        rw [truncStr_ne_empty]
        cases h : article.textContent <;> simp [truthyStr, h]

/-- C2 (counterexample): a successful Firecrawl scrape of a response
carrying neither markdown nor html returns `text = ""` — an empty text on
success, contradicting the claimed non-emptiness invariant. -/
theorem firecrawl_empty_success_text_empty :
    exceptText (firecrawlScrape true respEmpty "https://example.com" {}) = some "" := rfl

theorem withSubpages_depth (r : CrawlResult) (x : Option (List CrawlResult)) :
    (r.withSubpages x).depth = r.depth := by
  cases r; rfl

theorem withSubpages_subpages (r : CrawlResult) (x : Option (List CrawlResult)) :
    (r.withSubpages x).subpages = x := by
  cases r; rfl

theorem withDepth_depth (r : CrawlResult) (d : Option Nat) :
    (r.withDepth d).depth = d := by
  cases r; rfl

theorem withDepth_subpages (r : CrawlResult) (d : Option Nat) :
    (r.withDepth d).subpages = r.subpages := by
  cases r; rfl

theorem normalizeCheerio_ok_shape (deps : WebDeps) (html url : String)
    (options : CrawlOptions) (depth : Nat) (r : CrawlResult)
    (h : normalizeCheerioResultToCrawl deps html url options depth = .ok r) :
    r.subpages = none ∧ r.depth = some depth := by
  unfold normalizeCheerioResultToCrawl at h
  cases hb : deps.readability html url with
  | none => rw [hb] at h; exact absurd h (by simp)
  | some article =>
      rw [hb] at h
      cases h
      exact ⟨rfl, rfl⟩

theorem crawlStep_subpages_none (deps : WebDeps) (options : CrawlOptions)
    (h : jsOrNat options.maxSubpages 0 = 0) (fuel : Nat) (url : String) (depth : Nat)
    (visited : List String) :
    onOk (crawlStep deps options fuel url depth visited).1 (fun r => r.subpages = none) := by
  cases fuel with
  | zero => exact trivial
  | succ f =>
      have hcond : ¬(depth < options.maxDepth.getD 1 ∧
          0 < jsOrNat options.maxSubpages 0) := by
        rw [h]
        rintro ⟨-, h2⟩
        omega
      unfold crawlStep
      dsimp only
      repeat' split
      all_goals try exact trivial
      all_goals
        first
          | exact absurd (by assumption) hcond
          | (rename_i r heq
             exact (normalizeCheerio_ok_shape deps _ url options depth r heq).1)

theorem normalizeExa_subpages_eq (deps : WebDeps) (options : CrawlOptions)
    (u t h ti su au pd im fa : Option String) (subs : List ExaResult) (url : String)
    (d : Nat) :
    (normalizeExaResultToCrawl deps options (.mk u t h ti su au pd im fa subs) url d).subpages =
      (if (if subs.length > 0 then
              normalizeExaSubpages deps options (jsOrNat options.maxSubpages 0) subs url (d + 1)
            else []).length > 0 then
          some (if subs.length > 0 then
              normalizeExaSubpages deps options (jsOrNat options.maxSubpages 0) subs url (d + 1)
            else [])
        else none) := rfl

mutual

theorem exa_noEmptySubs (deps : WebDeps) (options : CrawlOptions) :
    ∀ (r : ExaResult) (url : String) (d : Nat),
      NoEmptySubs (normalizeExaResultToCrawl deps options r url d)
  | .mk u t h ti su au pd im fa subs, url, d => by
      constructor
      · rw [normalizeExa_subpages_eq]
        intro hcontra
        split at hcontra
        all_goals split at hcontra
        all_goals
          first
            | exact Option.noConfusion hcontra
            | (rename_i hlen2
               rw [Option.some.injEq] at hcontra
               rw [hcontra] at hlen2
               simp at hlen2)
      · intro subsOut hsubs c hc
        rw [normalizeExa_subpages_eq] at hsubs
        split at hsubs
        · split at hsubs
          · cases hsubs
            exact exaList_noEmptySubs deps options _ subs url (d + 1) c hc
          · exact Option.noConfusion hsubs
        · split at hsubs
          · cases hsubs
            exact absurd hc (List.not_mem_nil c)
          · exact Option.noConfusion hsubs

theorem exaList_noEmptySubs (deps : WebDeps) (options : CrawlOptions) :
    ∀ (n : Nat) (l : List ExaResult) (url : String) (d : Nat),
      ∀ c ∈ normalizeExaSubpages deps options n l url d, NoEmptySubs c
  | 0, _, _, _ => by intro c hc; exact absurd hc (by simp [normalizeExaSubpages])
  | _ + 1, [], _, _ => by intro c hc; exact absurd hc (by simp [normalizeExaSubpages])
  | n + 1, s :: ss, url, d => by
      intro c hc
      rw [show normalizeExaSubpages deps options (n + 1) (s :: ss) url d =
          normalizeExaResultToCrawl deps options s (jsOrStr s.url url) d ::
            normalizeExaSubpages deps options n ss url d from rfl] at hc
      rcases List.mem_cons.mp hc with hch | hct
      · rw [hch]
        exact exa_noEmptySubs deps options s (jsOrStr s.url url) d
      · exact exaList_noEmptySubs deps options n ss url d c hct

end

/-- C3 amended: with an effective `maxSubpages` of 0 neither the cheerio
crawl nor the Firecrawl crawl ever carries a `subpages` field, and the Exa
normalizer omits the field whenever the processed subpage list is empty
(never emitting `some []`); but "present only when at least one child was
successfully fetched" does not hold in general — on the cheerio (and
Firecrawl) paths the field is set whenever at least one candidate link was
attempted, even if every child fetch failed, yielding an empty sequence. -/
theorem subpages_presence_amended :
    (∀ (deps : WebDeps) (url : String) (options : CrawlOptions),
        jsOrNat options.maxSubpages 0 = 0 →
          onOk (cheerioCrawl deps url options) (fun r => r.subpages = none)) ∧
      (∀ (deps : WebDeps) (options : CrawlOptions) (r : ExaResult) (url : String) (d : Nat),
          NoEmptySubs (normalizeExaResultToCrawl deps options r url d)) ∧
      (∀ (deps : WebDeps) (hasKey : Bool) (resp : FirecrawlResponse) (url : String)
          (options : CrawlOptions),
          jsOrNat options.maxSubpages 0 = 0 →
            onOk (firecrawlCrawl deps hasKey resp url options)
              (fun r => r.subpages = none)) := by
  refine ⟨?_, ?_, ?_⟩
  · intro deps url options h
    exact crawlStep_subpages_none deps options h _ url 0 []
  · intro deps options r url d
    exact exa_noEmptySubs deps options r url d
  · intro deps hasKey resp url options h
    unfold firecrawlCrawl
    cases hasKey with
    | false => exact trivial
    | true =>
        have hcond : ¬(0 < jsOrNat options.maxSubpages 0) := by rw [h]; omega
        simp only [if_neg hcond]
        split
        · exact trivial
        · exact rfl

/-- C3 (counterexample): a cheerio crawl whose single discovered child link
fails to fetch returns the root with `subpages = []` — the field is present
as an empty sequence, contradicting "no subpages field at all, never an
empty sequence" for a node with zero successfully fetched children. -/
theorem cheerio_allFailed_empty_subpages :
    crawlOkSubpages
        (cheerioCrawl testDeps "https://a.example/"
          { maxSubpages := some 1, maxDepth := some 1 }) = some (some []) := rfl

theorem subpages_presence_witness :
    onOk (cheerioCrawl testDeps "https://a.example/" {}) (fun r => r.subpages = none) :=
  subpages_presence_amended.1 testDeps "https://a.example/" {} rfl

theorem onOk_mp {ε α : Type _} (e : Except ε α) {P Q : α → Prop}
    (h : onOk e P) (himp : ∀ a, P a → Q a) : onOk e Q := by
  cases e with
  | error _ => exact trivial
  | ok a => exact himp a h

theorem normalizeExa_depth_eq (deps : WebDeps) (options : CrawlOptions)
    (u t h ti su au pd im fa : Option String) (subs : List ExaResult) (url : String)
    (d : Nat) :
    (normalizeExaResultToCrawl deps options (.mk u t h ti su au pd im fa subs) url d).depth =
      some d := rfl

theorem normalizeFirecrawl_crawl_shape (data : FirecrawlData) (url : String) (depth : Nat) :
    (normalizeFirecrawlResultToCrawl data url depth).depth = some depth ∧
      (normalizeFirecrawlResultToCrawl data url depth).subpages = none :=
  ⟨rfl, rfl⟩

mutual

theorem exa_subpageDepths (deps : WebDeps) (options : CrawlOptions) :
    ∀ (r : ExaResult) (url : String) (d : Nat),
      SubpageDepths d (normalizeExaResultToCrawl deps options r url d)
  | .mk u t h ti su au pd im fa subs, url, d => by
      refine SubpageDepths.intro d _ (normalizeExa_depth_eq deps options u t h ti su au pd im fa subs url d) ?_
      intro subsOut hsubs c hc
      rw [normalizeExa_subpages_eq] at hsubs
      split at hsubs
      · split at hsubs
        · cases hsubs
          exact exaList_subpageDepths deps options _ subs url (d + 1) c hc
        · exact Option.noConfusion hsubs
      · split at hsubs
        · cases hsubs
          exact absurd hc (List.not_mem_nil c)
        · exact Option.noConfusion hsubs

theorem exaList_subpageDepths (deps : WebDeps) (options : CrawlOptions) :
    ∀ (n : Nat) (l : List ExaResult) (url : String) (d : Nat),
      ∀ c ∈ normalizeExaSubpages deps options n l url d, SubpageDepths d c
  | 0, _, _, _ => by intro c hc; exact absurd hc (by simp [normalizeExaSubpages])
  | _ + 1, [], _, _ => by intro c hc; exact absurd hc (by simp [normalizeExaSubpages])
  | n + 1, s :: ss, url, d => by
      intro c hc
      rw [show normalizeExaSubpages deps options (n + 1) (s :: ss) url d =
          normalizeExaResultToCrawl deps options s (jsOrStr s.url url) d ::
            normalizeExaSubpages deps options n ss url d from rfl] at hc
      rcases List.mem_cons.mp hc with hch | hct
      · rw [hch]
        exact exa_subpageDepths deps options s (jsOrStr s.url url) d
      · exact exaList_subpageDepths deps options n ss url d c hct

end

theorem crawlKids_mem (step : String → List String → Except String CrawlResult × List String) :
    ∀ (ls visited : List String) (c : CrawlResult),
      c ∈ (crawlKids step ls visited).1 →
      ∃ l v v2, step l v = (.ok c, v2) := by
  intro ls
  induction ls with
  | nil => intro visited c hc; exact absurd hc (by simp [crawlKids])
  | cons l rest ih =>
      intro visited c hc
      unfold crawlKids at hc
      split at hc
      · next r v1 heq =>
          dsimp only at hc
          rcases List.mem_cons.mp hc with hh | ht
          · refine ⟨l, visited, v1, ?_⟩
            rw [heq, hh]
          · exact ih v1 c ht
      · next v1 heq => exact ih v1 c hc

theorem crawlStep_depthInv (deps : WebDeps) (options : CrawlOptions) :
    ∀ (fuel : Nat) (url : String) (depth : Nat) (visited : List String)
      (r : CrawlResult) (v : List String),
      crawlStep deps options fuel url depth visited = (.ok r, v) →
      DepthInv (options.maxDepth.getD 1) depth r := by
  intro fuel
  induction fuel with
  | zero =>
      intro url depth visited r v h
      exact absurd h (by simp [crawlStep])
  | succ f ih =>
      intro url depth visited r v h
      unfold crawlStep at h
      dsimp only at h
      split at h
      · exact absurd h (by simp)
      · next hguard =>
          have hdle : depth ≤ options.maxDepth.getD 1 := by
            push_neg at hguard
            omega
          split at h
          · exact absurd h (by simp)
          · split at h
            · exact absurd h (by simp)
            · split at h
              · exact absurd h (by simp)
              · next r0 heq =>
                  have hshape := normalizeCheerio_ok_shape deps _ url options depth r0 heq
                  split at h
                  · split at h
                    · -- subpage branch: r is r0 with the crawled kids attached
                      simp only [Prod.mk.injEq] at h
                      obtain ⟨h1, -⟩ := h
                      have hr := Except.ok.inj h1
                      rw [← hr]
                      refine DepthInv.intro depth _ ?_ hdle ?_
                      · rw [withSubpages_depth]
                        exact hshape.2
                      · intro subs hsubs c hc
                        rw [withSubpages_subpages] at hsubs
                        cases hsubs
                        obtain ⟨l, vv, vv2, hstep⟩ := crawlKids_mem _ _ _ c hc
                        exact ih l (depth + 1) vv c vv2 hstep
                    · simp only [Prod.mk.injEq] at h
                      obtain ⟨h1, -⟩ := h
                      have hr := Except.ok.inj h1
                      rw [← hr]
                      refine DepthInv.intro depth _ hshape.2 hdle ?_
                      intro subs hsubs
                      rw [hshape.1] at hsubs
                      exact absurd hsubs (by simp)
                  · simp only [Prod.mk.injEq] at h
                    obtain ⟨h1, -⟩ := h
                    have hr := Except.ok.inj h1
                    rw [← hr]
                    refine DepthInv.intro depth _ hshape.2 hdle ?_
                    intro subs hsubs
                    rw [hshape.1] at hsubs
                    exact absurd hsubs (by simp)

theorem cheerioCrawlBatch_results_mem (deps : WebDeps) (options : CrawlOptions) :
    ∀ (urls : List String) (r : CrawlResult),
      r ∈ (cheerioCrawlBatch deps urls options).results →
      ∃ u, cheerioCrawl deps u options = .ok r := by
  intro urls
  induction urls with
  | nil => intro r hr; exact absurd hr (by simp [cheerioCrawlBatch])
  | cons u rest ih =>
      intro r hr
      unfold cheerioCrawlBatch at hr
      dsimp only at hr
      split at hr
      · next r0 heq =>
          dsimp only at hr
          rcases List.mem_cons.mp hr with hh | ht
          · refine ⟨u, ?_⟩
            rw [heq, hh]
          · exact ih r ht
      · next msg heq =>
          dsimp only at hr
          exact ih r hr

theorem cheerioCrawl_depthInv (deps : WebDeps) (url : String) (options : CrawlOptions) :
    onOk (cheerioCrawl deps url options) (DepthInv (options.maxDepth.getD 1) 0) := by
  cases hres : cheerioCrawl deps url options with
  | error e => exact trivial
  | ok r =>
      show DepthInv (options.maxDepth.getD 1) 0 r
      unfold cheerioCrawl at hres
      have h2 : crawlStep deps options (options.maxDepth.getD 1 + 1) url 0 [] =
          (.ok r, (crawlStep deps options (options.maxDepth.getD 1 + 1) url 0 []).2) := by
        rw [← hres]
      exact crawlStep_depthInv deps options _ url 0 [] r _ h2

/-- C4 amended: on every provider path every entry of a node's `subpages`
carries `depth == parent.depth + 1`; the bound `depth ≤ maxDepth` holds on
the cheerio path, and on the Firecrawl path whenever the effective
`maxDepth` is at least 1, but it is not enforced by the Exa normalizer,
which processes arbitrarily nested native subpage trees at ever-increasing
depth without consulting `maxDepth`. -/
theorem subpage_depths_amended :
    (∀ (deps : WebDeps) (options : CrawlOptions) (r : ExaResult) (url : String) (d : Nat),
        SubpageDepths d (normalizeExaResultToCrawl deps options r url d)) ∧
      (∀ (deps : WebDeps) (url : String) (options : CrawlOptions),
          onOk (cheerioCrawl deps url options) (DepthInv (options.maxDepth.getD 1) 0)) ∧
      (∀ (deps : WebDeps) (hasKey : Bool) (resp : FirecrawlResponse) (url : String)
          (options : CrawlOptions),
          onOk (firecrawlCrawl deps hasKey resp url options)
            (fun r => SubpageDepths 0 r ∧
              (1 ≤ options.maxDepth.getD 1 →
                DepthInv (options.maxDepth.getD 1) 0 r))) := by
  refine ⟨fun deps options r url d => exa_subpageDepths deps options r url d,
    fun deps url options => cheerioCrawl_depthInv deps url options, ?_⟩
  intro deps hasKey resp url options
  unfold firecrawlCrawl
  split
  · exact trivial
  · dsimp only
    set data := firecrawlExtractData resp with hdata
    set opts2 : CrawlOptions :=
      { options with
        maxSubpages := some 0
        maxDepth := some (jsOrNat options.maxDepth 1 - 1) } with hopts2
    have hplain : SubpageDepths 0 (normalizeFirecrawlResultToCrawl data url 0) ∧
        (1 ≤ options.maxDepth.getD 1 →
          DepthInv (options.maxDepth.getD 1) 0 (normalizeFirecrawlResultToCrawl data url 0)) := by
      have hshape := normalizeFirecrawl_crawl_shape data url 0
      constructor
      · refine SubpageDepths.intro 0 _ hshape.1 ?_
        intro subs hsubs
        rw [hshape.2] at hsubs
        exact absurd hsubs (by simp)
      · intro _
        refine DepthInv.intro 0 _ hshape.1 (Nat.zero_le _) ?_
        intro subs hsubs
        rw [hshape.2] at hsubs
        exact absurd hsubs (by simp)
    split
    · next hpos =>
        cases hlinks : data.links with
        | none => exact hplain
        | some links =>
            show SubpageDepths 0 _ ∧ _
            have hchild : ∀ c ∈ (cheerioCrawlBatch deps
                  (links.take (min (jsOrNat options.maxSubpages 0) links.length))
                  opts2).results.map
                (fun r2 => r2.withDepth (some (jsOrNat r2.depth 0 + 1))),
                c.depth = some 1 ∧ c.subpages = none := by
              intro c hc
              obtain ⟨r2, hr2mem, hr2⟩ := List.mem_map.mp hc
              obtain ⟨u, hu⟩ := cheerioCrawlBatch_results_mem deps opts2 _ r2 hr2mem
              have hdi : DepthInv (opts2.maxDepth.getD 1) 0 r2 := by
                have := cheerioCrawl_depthInv deps u opts2
                rw [hu] at this
                exact this
              have hd0 : r2.depth = some 0 := by
                cases hdi with
                | intro d r hd hle hs => exact hd
              have hsn : r2.subpages = none := by
                have hz : jsOrNat opts2.maxSubpages 0 = 0 := rfl
                have := crawlStep_subpages_none deps opts2 hz
                  (opts2.maxDepth.getD 1 + 1) u 0 []
                rw [show (crawlStep deps opts2 (opts2.maxDepth.getD 1 + 1) u 0 []).1 =
                    cheerioCrawl deps u opts2 from rfl, hu] at this
                exact this
              rw [← hr2]
              refine ⟨?_, ?_⟩
              · rw [withDepth_depth, hd0]
                rfl
              · rw [withDepth_subpages, hsn]
            have hshape := normalizeFirecrawl_crawl_shape data url 0
            constructor
            · refine SubpageDepths.intro 0 _ ?_ ?_
              · rw [withSubpages_depth]
                exact hshape.1
              · intro subs hsubs c hc
                rw [withSubpages_subpages] at hsubs
                cases hsubs
                obtain ⟨hcd, hcs⟩ := hchild c hc
                refine SubpageDepths.intro 1 c hcd ?_
                intro subs2 hsubs2
                rw [hcs] at hsubs2
                exact absurd hsubs2 (by simp)
            · intro hmd
              refine DepthInv.intro 0 _ ?_ (Nat.zero_le _) ?_
              · rw [withSubpages_depth]
                exact hshape.1
              · intro subs hsubs c hc
                rw [withSubpages_subpages] at hsubs
                cases hsubs
                obtain ⟨hcd, hcs⟩ := hchild c hc
                refine DepthInv.intro 1 c hcd hmd ?_
                intro subs2 hsubs2
                rw [hcs] at hsubs2
                exact absurd hsubs2 (by simp)
    · exact hplain

/-- C4 (counterexample): the Exa normalizer applied to a payload whose
native subpages are nested two levels deep, under a request with
`maxDepth = 1` (and `maxSubpages = 1`), produces a grandchild node of depth
2 — exceeding the request's `maxDepth`. -/
theorem exa_depth_exceeds_maxDepth :
    ((firstSub (normalizeExaResultToCrawl testDeps c4opts exaRoot
          "https://a.example/" 0)).bind firstSub).bind CrawlResult.depth = some 2 ∧
      c4opts.maxDepth = some 1 := ⟨rfl, rfl⟩

theorem subpage_depths_witness :
    onOk (firecrawlCrawl testDeps true respLinked "https://a.example/"
        { maxSubpages := some 1 })
      (DepthInv 1 0) :=
  onOk_mp _
    (subpage_depths_amended.2.2 testDeps true respLinked "https://a.example/"
      { maxSubpages := some 1 })
    (fun a h => h.2 (by decide))

theorem dedupFirstAux_sublist :
    ∀ (seen l : List String), (dedupFirstAux seen l).Sublist l := by
  intro seen l
  induction l generalizing seen with
  | nil => simp [dedupFirstAux]
  | cons x xs ih =>
      unfold dedupFirstAux
      by_cases hx : x ∈ seen
      · rw [if_pos hx]
        exact (ih seen).cons x
      · rw [if_neg hx]
        exact (ih (x :: seen)).cons₂ x

theorem mem_dedupFirstAux :
    ∀ (seen l : List String) (x : String),
      x ∈ dedupFirstAux seen l ↔ (x ∈ l ∧ x ∉ seen) := by
  intro seen l
  induction l generalizing seen with
  | nil => intro x; simp [dedupFirstAux]
  | cons q qs ih =>
      intro x
      unfold dedupFirstAux
      by_cases hq : q ∈ seen
      · rw [if_pos hq, ih seen x]
        by_cases hxq : x = q
        · subst hxq
          simp [hq]
        · simp [hxq]
      · rw [if_neg hq]
        by_cases hxq : x = q
        · subst hxq
          simp [hq]
        · rw [List.mem_cons]
          simp only [hxq, false_or, ih (q :: seen) x, List.mem_cons]

theorem dedupFirstAux_nodup :
    ∀ (seen l : List String), (dedupFirstAux seen l).Nodup := by
  intro seen l
  induction l generalizing seen with
  | nil => simp [dedupFirstAux]
  | cons q qs ih =>
      unfold dedupFirstAux
      by_cases hq : q ∈ seen
      · rw [if_pos hq]
        exact ih seen
      · rw [if_neg hq]
        refine List.nodup_cons.mpr ⟨?_, ih (q :: seen)⟩
        intro hmem
        exact ((mem_dedupFirstAux (q :: seen) qs q).mp hmem).2 (List.mem_cons_self _ _)

theorem linkOf_some (deps : WebDeps) (baseUrl baseDomain : String) (sameDomainOnly : Bool)
    (href l : String) (h : linkOf deps baseUrl baseDomain sameDomainOnly href = some l) :
    (jsStartsWith l "http://" = true ∨ jsStartsWith l "https://" = true) ∧
      href ≠ "" ∧ jsStartsWith href "#" = false ∧ jsStartsWith href "mailto:" = false ∧
      ∃ u, deps.resolve href baseUrl = some u ∧ u.href = l ∧
        ∃ u2, deps.parse l = some u2 ∧
          (sameDomainOnly = true → u2.hostname = baseDomain) := by
  unfold linkOf at h
  split at h
  · exact absurd h (by simp)
  · next hskip =>
      push_neg at hskip
      obtain ⟨hne, hfrag, hmailto⟩ := hskip
      split at h
      · exact absurd h (by simp)
      · next u hres =>
          split at h
          · exact absurd h (by simp)
          · next u2 hparse =>
              split at h
              · exact absurd h (by simp)
              · next hdom =>
                  split at h
                  · next hhttp =>
                      have hl := Option.some.inj h
                      subst hl
                      refine ⟨hhttp, hne, Bool.not_eq_true _ ▸ hfrag,
                        Bool.not_eq_true _ ▸ hmailto, u, hres, rfl, u2, hparse, ?_⟩
                      intro hsd
                      by_contra hneq
                      exact hdom ⟨hsd, hneq⟩
                  · exact absurd h (by simp)

/-- C9: for every HTML input and every base URL that parses, `extractLinks`
returns only absolute `http`/`https` URLs: empty, fragment-only and
`mailto:` anchor targets are ignored, hrefs are resolved against the base
URL (a failed resolution is silently skipped), URLs on a different host
than the base are dropped when `sameDomainOnly` is set, and the output is
the anchor-loop output deduplicated preserving first-seen order. -/
theorem extractLinks_correct (deps : WebDeps) (html baseUrl : String)
    (sameDomainOnly : Bool) (baseU : Url) (out : List String)
    (hbase : deps.parse baseUrl = some baseU)
    (h : extractLinks deps html baseUrl sameDomainOnly = some out) :
    ExtractLinksSpec deps html baseUrl sameDomainOnly baseU out := by
  unfold extractLinks at h
  rw [hbase] at h
  have hout := (Option.some.inj h).symm
  subst hout
  unfold dedupFirst
  refine ⟨dedupFirstAux_nodup [] _, dedupFirstAux_sublist [] _, ?_, ?_⟩
  · intro x
    rw [mem_dedupFirstAux]
    simp
  · intro l hl
    have hraw : l ∈ rawLinks deps html baseUrl baseU.hostname sameDomainOnly :=
      ((mem_dedupFirstAux [] _ l).mp hl).1
    obtain ⟨href, hhref, hlink⟩ := List.mem_filterMap.mp hraw
    obtain ⟨hhttp, hne, hfrag, hmailto, u, hres, hu, u2, hparse, hhost⟩ :=
      linkOf_some deps baseUrl baseU.hostname sameDomainOnly href l hlink
    exact ⟨hhttp, href, hhref, hne, hfrag, hmailto, u, hres, hu, u2, hparse, hhost⟩

theorem extractLinks_correct_witness :
    ExtractLinksSpec testDeps "LINKS" "https://a.example/" true
      ⟨"https://a.example/", "a.example"⟩ ["https://a.example/b"] :=
  extractLinks_correct testDeps "LINKS" "https://a.example/" true
    ⟨"https://a.example/", "a.example"⟩ ["https://a.example/b"] rfl rfl

end Scraping
